import Mathlib

/-!
Shallow embedding of the `wfc-rust` repository (src/src/wfc/mod.rs and
src/src/wfc/view.rs): the Tile/Wfc data model, the view/span indexing
layer with its iterators, and the `step` collapse algorithm.

Conventions of the embedding:
* `BTreeSet<T>` becomes `Finset T` over a `LinearOrder`; iteration order of a
  `BTreeSet` is ascending, modelled by `ascList` (the ascending sorted list
  of the set).
* A Rust `panic!` / failed `assert!` / failed `expect` / out-of-bounds index
  is modelled by an `Option` result being `none`.
* `f64` entropy scores are modelled by `ℚ` (total order, no NaN; the source
  unwraps `partial_cmp`, so NaN aborts there as well).
* The thread-local random source is modelled by explicit choice parameters:
  `cSel` picks inside the candidate pool (`SliceRandom::choose`), `cVal`
  picks inside the candidate set (`Rng::gen_range`); both are reduced
  modulo the relevant length, matching a uniform draw over that range.
-/

namespace WfcRs

/-- Tile from mod.rs: either a committed value or a set of candidates. -/
inductive Tile (T : Type) where
  | Definite : T → Tile T
  | Indefinite : Finset T → Tile T
deriving DecidableEq

variable {T : Type}

/-- The matches! test used by the entropy-map filter in `Wfc::step`. -/
def Tile.isIndefinite : Tile T → Bool
  | Tile.Definite _ => false
  | Tile.Indefinite _ => true

/-- The `Wfc` struct from mod.rs: width, height and the row-major tile map.
The `rules` field is passed separately (see `Rules`). -/
structure Wfc (T : Type) where
  width : Nat
  height : Nat
  map : List (Tile T)

/-- The invariant established by `Wfc::new`: positive dimensions and
`tiles.len() == width * height`. -/
def Wfc.Valid (w : Wfc T) : Prop :=
  0 < w.width ∧ 0 < w.height ∧ w.map.length = w.width * w.height

/-- `Wfc::view(idx)`: asserts `idx < width*height`, builds the position
`(idx % width, idx / width)`. -/
def Wfc.view (w : Wfc T) (idx : Nat) : Option (Nat × Nat) :=
  if idx < w.width * w.height then some (idx % w.width, idx / w.width) else none

/-- `WfcView::get_at(row, col)`: reads the map at `row * width + col`
(`none` models the out-of-bounds panic). -/
def Wfc.get_at (w : Wfc T) (row col : Nat) : Option (Tile T) :=
  w.map[row * w.width + col]?

/-- `Wfc::view(idx)` followed by `WfcView::get()`.  The source destructures
`self.pos` (which holds `(x, y)`) as `let (row, col) = self.pos` and calls
`get_at(row, col)`, so the read lands at `x * width + y`. -/
def Wfc.viewGet (w : Wfc T) (idx : Nat) : Option (Tile T) :=
  match w.view idx with
  | none => none
  | some (x, y) => w.get_at x y

/-! ## slice chunks, rows, columns, spans (view.rs) -/

/-- Fuel-driven model of `slice::chunks(n)`; `l.length` is always enough fuel
for a positive `n`, and every use site has `n > 0` (the grid width). -/
def chunksGo (n : Nat) : Nat → List α → List (List α)
  | 0, _ => []
  | _, [] => []
  | fuel + 1, a :: l => (a :: l).take n :: chunksGo n fuel ((a :: l).drop n)

/-- `slice::chunks(n)` on a list. -/
def chunks (n : Nat) (l : List α) : List (List α) :=
  chunksGo n l.length l

/-- A `Span` (view.rs) is the collected vector of borrowed row slices. -/
abbrev Span (T : Type) := List (List (Tile T))

/-- `WfcView::row(r)`: asserts `r < height`, then slices
`map[r*width .. r*width + height]` (the source really uses `height` as the
slice length). `none` models the assert or slice-range panic. -/
def Wfc.row (w : Wfc T) (r : Nat) : Option (Span T) :=
  if r < w.height then
    let idx := r * w.width
    if idx + w.height ≤ w.map.length then
      some [(w.map.drop idx).take w.height]
    else none
  else none

/-- The one-element slice `&chunk[c .. c+1]` used by `WfcView::col`. -/
def sliceOne (c : Nat) (ch : List α) : Option (List α) :=
  if c + 1 ≤ ch.length then some ((ch.drop c).take 1) else none

/-- `WfcView::col(c)`: asserts `c < width`, then takes `&chunk[c..c+1]` of
every width-chunk of the map. -/
def Wfc.col (w : Wfc T) (c : Nat) : Option (Span T) :=
  if c < w.width then (chunks w.width w.map).mapM (sliceOne c) else none

/-- `WfcView::span(x, y)`: asserts both ranges non-empty, `x.end < width`
and `y.end < height` (both strict in the source), then collects
`&chunk[x]` over `chunks(width).take(y.end).skip(y.start)`. -/
def Wfc.span (w : Wfc T) (x y : Nat × Nat) : Option (Span T) :=
  if x.2 - x.1 = 0 then none
  else if y.2 - y.1 = 0 then none
  else if x.2 < w.width then
    if y.2 < w.height then
      (((chunks w.width w.map).take y.2).drop y.1).mapM fun ch =>
        if x.2 ≤ ch.length then some ((ch.drop x.1).take (x.2 - x.1)) else none
    else none
  else none

/-- `Span::width`: length of the first row slice, or 0. -/
def spanWidth (sp : Span T) : Nat :=
  (sp[0]?.map List.length).getD 0

/-- `Span::height`: number of row slices. -/
def spanHeight (sp : Span T) : Nat :=
  sp.length

/-- Mutable state of `RowIter` (fields `y`, `x`). -/
structure RowIterS where
  y : Nat
  x : Nat
deriving DecidableEq

/-- One call of `RowIter::next`:
returns `none` for a panic, otherwise the yielded item (`none` = iterator
end) and the successor state. -/
def rowNext (sp : Span T) (s : RowIterS) :
    Option (Option (Tile T) × RowIterS) :=
  match sp[s.y]? with
  | some out =>
    match out[s.x]? with
    | some t => some (some t, ⟨s.y, s.x + 1⟩)
    | none =>
      match sp[s.y + 1]? with
      | some row2 =>
        match row2[0]? with
        | some t => some (some t, ⟨s.y + 1, 1⟩)
        | none => none
      | none => some (none, ⟨s.y + 1, 1⟩)
  | none => some (none, s)

/-- State of the row iterator after `k` calls of `next`, starting from the
state `Span::row_iter` builds (`y = 0, x = 0`).  `none` = a panic occurred. -/
def rowIterStates (sp : Span T) : Nat → Option RowIterS
  | 0 => some ⟨0, 0⟩
  | k + 1 =>
    match rowIterStates sp k with
    | none => none
    | some s =>
      match rowNext sp s with
      | none => none
      | some (_, s2) => some s2

/-- Item produced by the k-th (0-based) call of `RowIter::next`. -/
def rowIterItem (sp : Span T) (k : Nat) : Option (Option (Tile T)) :=
  match rowIterStates sp k with
  | none => none
  | some s => (rowNext sp s).map Prod.fst

/-- Mutable state of `ColIter` (fields `y_idx`, `x_idx`). -/
structure ColIterS where
  y : Nat
  x : Nat
deriving DecidableEq

/-- One call of `ColIter::next`, mirroring the three match arms of the
source; `none` models the out-of-bounds panic of the slice indexings. -/
def colNext (sp : Span T) (s : ColIterS) :
    Option (Option (Tile T) × ColIterS) :=
  if s.x = spanWidth sp ∧ s.y = spanHeight sp then some (none, s)
  else if s.y = spanHeight sp then
    let x2 := s.x + 1
    if x2 = spanWidth sp then some (none, ⟨1, x2⟩)
    else
      match sp[0]? with
      | some row0 =>
        match row0[x2]? with
        | some t => some (some t, ⟨1, x2⟩)
        | none => none
      | none => none
  else
    match sp[s.y]? with
    | some row =>
      match row[s.x]? with
      | some t => some (some t, ⟨s.y + 1, s.x⟩)
      | none => none
    | none => none

/-- State of the column iterator after `k` calls, starting from
`Span::col_iter`'s initial state (`y_idx = 0, x_idx = 0`). -/
def colIterStates (sp : Span T) : Nat → Option ColIterS
  | 0 => some ⟨0, 0⟩
  | k + 1 =>
    match colIterStates sp k with
    | none => none
    | some s =>
      match colNext sp s with
      | none => none
      | some (_, s2) => some s2

/-- Item produced by the k-th (0-based) call of `ColIter::next`. -/
def colIterItem (sp : Span T) (k : Nat) : Option (Option (Tile T)) :=
  match colIterStates sp k with
  | none => none
  | some s => (colNext sp s).map Prod.fst

/-! ## the engine step (mod.rs) -/

/-- The `WfcRules` trait: `get_states` receives the view (whole map plus the
position `(idx % width, idx / width)`), `entropy` scores a tile. -/
structure Rules (T : Type) [LinearOrder T] where
  get_states : Wfc T → Nat × Nat → Finset T
  entropy : Tile T → ℚ

variable {S : Type} [LinearOrder S]

/-- The ascending iteration order of a `BTreeSet`, as a kernel-computable
list: insertion sort of any list representative of the underlying
multiset (well-defined because two permutations of each other sort to the
same sorted list). -/
def ascList (s : Finset S) : List S :=
  Quot.liftOn s.val (List.insertionSort (· ≤ ·)) fun _ _ h =>
    List.eq_of_perm_of_sorted
      ((List.perm_insertionSort _ _).trans (h.trans (List.perm_insertionSort _ _).symm))
      (List.sorted_insertionSort _ _) (List.sorted_insertionSort _ _)

/-- Stable insertion of one `(index, entropy)` entry, keeping an entry that
compares equal behind the already-placed ones: this is the order
`Vec::sort_by` (a stable sort) produces. -/
def insertEntry (p : Nat × ℚ) : List (Nat × ℚ) → List (Nat × ℚ)
  | [] => [p]
  | q :: l => if p.2 ≤ q.2 then p :: q :: l else q :: insertEntry p l

/-- Stable sort of the entropy entries by score (`map.sort_by` on the
second component). -/
def sortEntries : List (Nat × ℚ) → List (Nat × ℚ)
  | [] => []
  | p :: l => insertEntry p (sortEntries l)

/-- The `entropy_map` block of `Wfc::step`: filter the indefinite tiles,
score them, enumerate (note: after the filter, so the attached index is the
position among the indefinite tiles), and sort by score. -/
def Wfc.entropyMap (R : Rules S) (w : Wfc S) : List (Nat × ℚ) :=
  sortEntries (((w.map.filter Tile.isIndefinite).map R.entropy).enum)

/-- The `next_highest` block: consume the first entry, then
`Iterator::position` of the first entry whose score differs from it. -/
def nextHighest (em : List (Nat × ℚ)) : Option Nat :=
  match em with
  | [] => none
  | (_, e0) :: rest => rest.findIdx? fun p => p.2 != e0

/-- The candidate slice the selection draws from:
`&entropy_map[0..next_highest]` when a differing score exists, the whole
map otherwise. -/
def pool (em : List (Nat × ℚ)) : List (Nat × ℚ) :=
  match nextHighest em with
  | some k => em.take k
  | none => em

/-- The `selected` block: `choose` a random element of the pool (`none`
models the `expect("No states left!")` panic on an empty pool) and keep its
index component. -/
def selectCell (em : List (Nat × ℚ)) (cSel : Nat) : Option Nat :=
  let p := pool em
  match p[cSel % p.length]? with
  | some q => some q.1
  | none => none

/-- The `old` block of `Wfc::step`: read the selected tile as indefinite
(`none` models the `as_indefinite` panic on a `Definite` tile and the
`gen_range` panic on an empty set), pick the `cVal`-th smallest candidate,
replace the tile with `Definite`, and return the new map together with the
remaining candidates. -/
def Wfc.commit (w : Wfc S) (selected cVal : Nat) :
    Option (List (Tile S) × Finset S) :=
  match w.map[selected]? with
  | some (Tile.Indefinite states) =>
    match (ascList states)[cVal % states.card]? with
    | some st => some (w.map.set selected (Tile.Definite st), states.erase st)
    | none => none
  | _ => none

/-- The propagation loop of `Wfc::step`: walk the (sorted) entropy map,
skip the selected index, build a view (`none` models the failed
`view` assert), query the rules on the post-commit map, and either stop
with `valid = false` on an empty result (keeping the entries pushed so
far) or push the recomputed set. -/
def propagate (R : Rules S) (width height : Nat) (map1 : List (Tile S))
    (selected : Nat) : List (Nat × ℚ) → Option (Bool × List (Nat × Finset S))
  | [] => some (true, [])
  | (idx, _) :: rest =>
    if idx = selected then propagate R width height map1 selected rest
    else if idx < width * height then
      let collapsed := R.get_states ⟨width, height, map1⟩ (idx % width, idx / width)
      if collapsed = ∅ then some (false, [])
      else
        match propagate R width height map1 selected rest with
        | none => none
        | some (v, l) => some (v, (idx, collapsed) :: l)
    else none

/-- The final write-back loop of `Wfc::step`: a one-element set becomes
`Definite` (its single element is the first of the set's iteration order),
a larger one `Indefinite`; `none` models the `unreachable` arm for an
empty set and the out-of-bounds write panic. -/
def writeStates (m : List (Tile S)) :
    List (Nat × Finset S) → Option (List (Tile S))
  | [] => some m
  | (idx, s) :: rest =>
    if idx < m.length then
      match ascList s with
      | [] => none
      | [st] => writeStates (m.set idx (Tile.Definite st)) rest
      | _ => writeStates (m.set idx (Tile.Indefinite s)) rest
    else none

/-- `Wfc::step`, with the two random draws passed in explicitly.  The
result is `none` for a panic, otherwise the returned `Option<()>` value
paired with the final tile map. -/
def Wfc.step (R : Rules S) (w : Wfc S) (cSel cVal : Nat) :
    Option (Option Unit × List (Tile S)) :=
  let em := w.entropyMap R
  if em.isEmpty then some (none, w.map)
  else
    match selectCell em cSel with
    | none => none
    | some selected =>
      match w.commit selected cVal with
      | none => none
      | some (map1, old) =>
        if em.isEmpty then some (none, map1)
        else
          match propagate R w.width w.height map1 selected em with
          | none => none
          | some (valid, sts) =>
            if valid then
              match writeStates map1 sts with
              | none => none
              | some map2 => some (some (), map2)
            else
              if old = ∅ then some (none, map1)
              else
                match writeStates (map1.set selected (Tile.Indefinite old)) sts with
                | none => none
                | some map2 => some (some (), map2)

/-- The value `step` hands back to the caller (`Option<()>`), forgetting
the grid. -/
def Wfc.stepRet (R : Rules S) (w : Wfc S) (cSel cVal : Nat) :
    Option (Option Unit) :=
  (w.step R cSel cVal).map Prod.fst

/-! ## concrete instances used as test vectors -/

/-- A 2-by-2 grid of definite integer tiles. -/
def wfcA : Wfc ℕ := ⟨2, 2, [.Definite 0, .Definite 1, .Definite 2, .Definite 3]⟩

/-- A 2-wide, 3-high grid of definite integer tiles. -/
def wfcB : Wfc ℕ :=
  ⟨2, 3, [.Definite 0, .Definite 1, .Definite 2, .Definite 3, .Definite 4, .Definite 5]⟩

/-- A 3-wide, 3-high grid of definite integer tiles. -/
def wfcF : Wfc ℕ :=
  ⟨3, 3, [.Definite 0, .Definite 1, .Definite 2, .Definite 3, .Definite 4,
    .Definite 5, .Definite 6, .Definite 7, .Definite 8]⟩

/-- Rules that forbid everything everywhere and score every tile 0
(the default entropy of the trait). -/
def Rzero : Rules ℕ := ⟨fun _ _ => ∅, fun _ => 0⟩

/-- A fully collapsed 2-by-1 grid. -/
def wfcSolved : Wfc ℕ := ⟨2, 1, [.Definite 0, .Definite 1]⟩

/-- A 2-by-1 grid whose two cells have a single candidate each. -/
def wfcStuck : Wfc ℕ := ⟨2, 1, [.Indefinite {5}, .Indefinite {5}]⟩

/-- Rules that report a contradiction at column 2 and the candidate `8`
elsewhere. -/
def RC : Rules ℕ := ⟨fun _ pos => if pos.1 = 2 then ∅ else {8}, fun _ => 0⟩

/-- A 3-by-1 grid: two candidates at cell 0, one candidate elsewhere. -/
def wfcC : Wfc ℕ := ⟨3, 1, [.Indefinite {1, 2}, .Indefinite {5}, .Indefinite {5}]⟩

/-- Rules that always report the single candidate `9`. -/
def RD : Rules ℕ := ⟨fun _ _ => {9}, fun _ => 0⟩

/-- A 3-by-1 grid whose first cell is already definite. -/
def wfcD : Wfc ℕ := ⟨3, 1, [.Definite 7, .Indefinite {1, 2}, .Indefinite {1, 2}]⟩

/-- Rules whose entropy is the number of candidates of the tile, so that
different cells score differently. -/
def RE : Rules ℕ :=
  ⟨fun _ _ => ∅, fun t => match t with
    | .Indefinite s => (s.card : ℚ)
    | .Definite _ => 0⟩

/-- A 2-by-1 grid with one single-candidate cell and one two-candidate
cell, so the minimal entropy is attained exactly once. -/
def wfcE : Wfc ℕ := ⟨2, 1, [.Indefinite {1}, .Indefinite {1, 2}]⟩

/-! ## theorems -/

theorem ascList_coe (s : Finset S) : (↑(ascList s) : Multiset S) = s.val := by
  rcases s with ⟨m, nd⟩
  induction m using Quot.inductionOn with
  | h l => exact Quot.sound (List.perm_insertionSort _ _)

theorem ascList_length (s : Finset S) : (ascList s).length = s.card := by
  have h := congrArg Multiset.card (ascList_coe s)
  simpa using h

theorem ascList_ne_nil (s : Finset S) (h : s ≠ ∅) : ascList s ≠ [] := by
  intro hnil
  apply h
  have := ascList_length s
  rw [hnil] at this
  exact Finset.card_eq_zero.mp this.symm

theorem selectCell_nil (cSel : Nat) : selectCell ([] : List (Nat × ℚ)) cSel = none := by
  simp [selectCell, pool, nextHighest]

theorem succ_div_mod_lt (sw k : Nat) (hsw : 0 < sw) (h : k % sw + 1 < sw) :
    (k + 1) / sw = k / sw ∧ (k + 1) % sw = k % sw + 1 := by
  have hdm : sw * (k / sw) + k % sw = k := Nat.div_add_mod k sw
  have hk1 : k + 1 = (k % sw + 1) + sw * (k / sw) := by omega
  constructor
  · rw [hk1, Nat.add_mul_div_left _ _ hsw, Nat.div_eq_of_lt h, Nat.zero_add]
  · rw [hk1, Nat.add_mul_mod_self_left, Nat.mod_eq_of_lt h]

theorem succ_div_mod_eq (sw k : Nat) (hsw : 0 < sw) (h : k % sw + 1 = sw) :
    (k + 1) / sw = k / sw + 1 ∧ (k + 1) % sw = 0 := by
  have hdm : sw * (k / sw) + k % sw = k := Nat.div_add_mod k sw
  have hk1 : k + 1 = sw + sw * (k / sw) := by omega
  constructor
  · rw [hk1, Nat.add_mul_div_left _ _ hsw, Nat.div_self hsw, Nat.add_comm]
  · rw [hk1, Nat.add_mul_mod_self_left, Nat.mod_self]

theorem div_pred_lt_of_mod_eq_zero {sw k n : Nat} (hsw : 0 < sw)
    (hk : k < sw * n) : k / sw < n := by
  rw [Nat.div_lt_iff_lt_mul hsw, Nat.mul_comm]
  exact hk

theorem rowIterStates_closed {T : Type} (sp : Span T) (sw : Nat) (hsw : 0 < sw)
    (hrows : ∀ r ∈ sp, r.length = sw) :
    ∀ k, k ≤ sw * sp.length →
      rowIterStates sp k =
        some (if k % sw = 0 ∧ k ≠ 0 then ⟨k / sw - 1, sw⟩
          else ⟨k / sw, k % sw⟩) := by
  intro k
  induction k with
  | zero =>
    intro _
    simp [rowIterStates]
  | succ k ih =>
    intro hk1
    have hklt : k < sw * sp.length := hk1
    have hstate := ih (Nat.le_of_lt hklt)
    have hqlt : k / sw < sp.length := div_pred_lt_of_mod_eq_zero hsw hklt
    have hmod : k % sw < sw := Nat.mod_lt _ hsw
    have hrow2 : sp[k / sw]? = some (sp.get ⟨k / sw, hqlt⟩) :=
      List.getElem?_eq_getElem hqlt
    have hlen2 : (sp.get ⟨k / sw, hqlt⟩).length = sw :=
      hrows _ (List.getElem_mem hqlt)
    by_cases hcase : k % sw = 0 ∧ k ≠ 0
    · -- state is ⟨k / sw - 1, sw⟩: the row is exhausted, move to row k / sw
      have hstate2 : rowIterStates sp k = some ⟨k / sw - 1, sw⟩ := by
        rw [hstate, if_pos hcase]
      have hqpos : 0 < k / sw := by
        rcases Nat.eq_zero_or_pos (k / sw) with h0 | h0
        · exfalso
          have hdm := Nat.div_add_mod k sw
          rw [h0, hcase.1] at hdm
          exact hcase.2 (by omega)
        · exact h0
      have hylt : k / sw - 1 < sp.length := by omega
      have hrow1 : sp[k / sw - 1]? = some (sp.get ⟨k / sw - 1, hylt⟩) :=
        List.getElem?_eq_getElem hylt
      have hlen1 : (sp.get ⟨k / sw - 1, hylt⟩).length = sw :=
        hrows _ (List.getElem_mem hylt)
      have hx : ((sp.get ⟨k / sw - 1, hylt⟩))[sw]? = none := by
        rw [List.getElem?_eq_none_iff, hlen1]
      have hy2 : k / sw - 1 + 1 = k / sw := by omega
      have hx0 : ((sp.get ⟨k / sw, hqlt⟩))[0]? = some ((sp.get ⟨k / sw, hqlt⟩).get ⟨0, by omega⟩) :=
        List.getElem?_eq_getElem (by omega)
      have hnext : rowNext sp (⟨k / sw - 1, sw⟩ : RowIterS) =
          some (some ((sp.get ⟨k / sw, hqlt⟩).get ⟨0, by omega⟩), ⟨k / sw, 1⟩) := by
        unfold rowNext
        simp only [hy2, hrow1, hx, hrow2, hx0]
      rw [rowIterStates]
      simp only [hstate2, hnext]
      -- the closed form at k + 1 is also ⟨k / sw, 1⟩
      rcases Nat.lt_or_ge 1 sw with h1 | h1
      · have hsucc := succ_div_mod_lt sw k hsw
          (by rw [hcase.1]; omega)
        rw [if_neg (by omega), hsucc.1, hsucc.2, hcase.1]
      · have hsw1 : sw = 1 := by omega
        have hsucc := succ_div_mod_eq sw k hsw
          (by rw [hcase.1]; omega)
        rw [if_pos ⟨hsucc.2, by omega⟩, hsucc.1, hsw1]
        simp
    · -- state is ⟨k / sw, k % sw⟩ with the cursor inside the row
      have hstate2 : rowIterStates sp k = some ⟨k / sw, k % sw⟩ := by
        rw [hstate, if_neg hcase]
      have hx : ((sp.get ⟨k / sw, hqlt⟩))[k % sw]? =
          some ((sp.get ⟨k / sw, hqlt⟩).get ⟨k % sw, by omega⟩) :=
        List.getElem?_eq_getElem (by omega)
      have hnext : rowNext sp (⟨k / sw, k % sw⟩ : RowIterS) =
          some (some ((sp.get ⟨k / sw, hqlt⟩).get ⟨k % sw, by omega⟩), ⟨k / sw, k % sw + 1⟩) := by
        unfold rowNext
        simp only [hrow2, hx]
      rw [rowIterStates]
      simp only [hstate2, hnext]
      rcases Nat.lt_or_ge (k % sw + 1) sw with hnextlt | hnextge
      · have hsucc := succ_div_mod_lt sw k hsw hnextlt
        rw [if_neg (by omega), hsucc.1, hsucc.2]
      · have hnexteq : k % sw + 1 = sw := by omega
        have hsucc := succ_div_mod_eq sw k hsw hnexteq
        rw [if_pos ⟨hsucc.2, by omega⟩, hsucc.1]
        simp only [Nat.add_sub_cancel]
        rw [hnexteq]

theorem rowIterItem_inbound {T : Type} (sp : Span T) (sw : Nat) (hsw : 0 < sw)
    (hrows : ∀ r ∈ sp, r.length = sw) (y x : Nat) (hy : y < sp.length)
    (hx : x < sw) :
    rowIterItem sp (y * sw + x) =
      some (some ((sp.get ⟨y, hy⟩).get
        ⟨x, by rw [hrows _ (List.get_mem sp y hy)]; exact hx⟩)) := by
  have hk : y * sw + x < sw * sp.length := by
    calc y * sw + x < y * sw + sw := by omega
    _ = (y + 1) * sw := by ring
    _ ≤ sp.length * sw := Nat.mul_le_mul_right _ (by omega)
    _ = sw * sp.length := Nat.mul_comm _ _
  have hdiv : (y * sw + x) / sw = y := by
    rw [Nat.add_comm, Nat.mul_comm y sw, Nat.add_mul_div_left _ _ hsw,
      Nat.div_eq_of_lt hx, Nat.zero_add]
  have hmod : (y * sw + x) % sw = x := by
    rw [Nat.add_comm, Nat.mul_comm y sw, Nat.add_mul_mod_self_left,
      Nat.mod_eq_of_lt hx]
  have hstate := rowIterStates_closed sp sw hsw hrows (y * sw + x)
    (Nat.le_of_lt hk)
  rw [hdiv, hmod] at hstate
  have hrowy : sp[y]? = some (sp.get ⟨y, hy⟩) := List.getElem?_eq_getElem hy
  have hleny : (sp.get ⟨y, hy⟩).length = sw := hrows _ (List.getElem_mem hy)
  by_cases hcase : x = 0 ∧ y * sw + x ≠ 0
  · obtain ⟨hx0, hne⟩ := hcase
    rw [if_pos ⟨hx0, hne⟩] at hstate
    subst hx0
    have hypos : 0 < y := by
      rcases Nat.eq_zero_or_pos y with h0 | h0
      · exact absurd (by rw [h0]; ring) hne
      · exact h0
    have hylt1 : y - 1 < sp.length := by omega
    have hrow1 : sp[y - 1]? = some (sp.get ⟨y - 1, hylt1⟩) :=
      List.getElem?_eq_getElem hylt1
    have hlen1 : (sp.get ⟨y - 1, hylt1⟩).length = sw :=
      hrows _ (List.getElem_mem hylt1)
    have hxnone : ((sp.get ⟨y - 1, hylt1⟩))[sw]? = none := by
      rw [List.getElem?_eq_none_iff, hlen1]
    have hy2 : y - 1 + 1 = y := by omega
    have hx0some : ((sp.get ⟨y, hy⟩))[0]? = some ((sp.get ⟨y, hy⟩).get ⟨0, by omega⟩) :=
      List.getElem?_eq_getElem (by omega)
    rw [rowIterItem, hstate]
    simp only []
    unfold rowNext
    simp only [hy2, hrow1, hxnone, hrowy, hx0some]
    rfl
  · rw [if_neg hcase] at hstate
    have hxsome : ((sp.get ⟨y, hy⟩))[x]? = some ((sp.get ⟨y, hy⟩).get ⟨x, by omega⟩) :=
      List.getElem?_eq_getElem (by omega)
    rw [rowIterItem, hstate]
    simp only []
    unfold rowNext
    simp only [hrowy, hxsome]
    rfl

theorem rowIterItem_end {T : Type} (sp : Span T) (sw : Nat) (hsw : 0 < sw)
    (hsp : sp ≠ []) (hrows : ∀ r ∈ sp, r.length = sw) :
    rowIterItem sp (sw * sp.length) = some none := by
  have hsh : 0 < sp.length := List.length_pos.mpr hsp
  have hN0 : sw * sp.length ≠ 0 := Nat.mul_ne_zero (by omega) (by omega)
  have hmod : sw * sp.length % sw = 0 := by
    rw [Nat.mul_comm]
    exact Nat.mul_mod_left _ _
  have hdiv : sw * sp.length / sw = sp.length := Nat.mul_div_cancel_left _ hsw
  have hstate := rowIterStates_closed sp sw hsw hrows (sw * sp.length)
    (Nat.le_refl _)
  rw [if_pos ⟨hmod, hN0⟩, hdiv] at hstate
  have hylt1 : sp.length - 1 < sp.length := by omega
  have hrow1 : sp[sp.length - 1]? = some (sp.get ⟨sp.length - 1, hylt1⟩) :=
    List.getElem?_eq_getElem hylt1
  have hlen1 : (sp.get ⟨sp.length - 1, hylt1⟩).length = sw :=
    hrows _ (List.getElem_mem hylt1)
  have hxnone : ((sp.get ⟨sp.length - 1, hylt1⟩))[sw]? = none := by
    rw [List.getElem?_eq_none_iff, hlen1]
  have hy2 : sp.length - 1 + 1 = sp.length := by omega
  have hend : sp[sp.length]? = none := by
    rw [List.getElem?_eq_none_iff]
  rw [rowIterItem, hstate]
  simp only []
  unfold rowNext
  simp only [hy2, hrow1, hxnone, hend]
  rfl

theorem chunksGo_nil {α : Type} (n fuel : Nat) :
    chunksGo n fuel ([] : List α) = [] := by
  cases fuel with
  | zero => rfl
  | succ f => cases n <;> rfl

theorem chunksGo_spec {α : Type} (n : Nat) (hn : 0 < n) :
    ∀ (h : Nat) (fuel : Nat) (l : List α), l.length = n * h → h ≤ fuel →
      (chunksGo n fuel l).length = h ∧
      ∀ j, j < h → (chunksGo n fuel l)[j]? = some ((l.drop (n * j)).take n) := by
  intro h
  induction h with
  | zero =>
    intro fuel l hlen _
    have hl : l = [] := List.length_eq_zero.mp (by omega)
    subst hl
    rw [chunksGo_nil]
    exact ⟨rfl, fun j hj => absurd hj (by omega)⟩
  | succ h ih =>
    intro fuel l hlen hfuel
    obtain ⟨f, rfl⟩ : ∃ f, fuel = f + 1 := ⟨fuel - 1, by omega⟩
    have hmul : n * (h + 1) = n * h + n := by ring
    obtain ⟨a, l2, rfl⟩ : ∃ a l2, l = a :: l2 := by
      cases l with
      | nil => exact absurd hlen (by simp; omega)
      | cons a l2 => exact ⟨a, l2, rfl⟩
    have hdroplen : ((a :: l2).drop n).length = n * h := by
      rw [List.length_drop]
      omega
    have hrec := ih f ((a :: l2).drop n) hdroplen (by omega)
    rw [chunksGo]
    constructor
    · simp [hrec.1]
    · intro j hj
      cases j with
      | zero => simp
      | succ j =>
        have hj2 : j < h := by omega
        have := hrec.2 j hj2
        rw [List.getElem?_cons_succ, this, List.drop_drop]
        have harith : n + n * j = n * (j + 1) := by ring
        rw [harith]

theorem chunks_spec {α : Type} (n : Nat) (hn : 0 < n) (h : Nat) (l : List α)
    (hlen : l.length = n * h) :
    (chunks n l).length = h ∧
    ∀ j, j < h → (chunks n l)[j]? = some ((l.drop (n * j)).take n) :=
  chunksGo_spec n hn h l.length l hlen
    (by rw [hlen]; exact Nat.le_mul_of_pos_left _ hn)

theorem mapM_eq_some_map {α β : Type} (f : α → Option β) (g : α → β)
    (l : List α) (h : ∀ a ∈ l, f a = some (g a)) :
    l.mapM f = some (l.map g) := by
  induction l with
  | nil => rfl
  | cons a l2 ih =>
    rw [List.mapM_cons, h a (List.mem_cons_self _ _),
      ih (fun b hb => h b (List.mem_cons_of_mem _ hb)), List.map_cons]
    rfl

theorem span_some_conditions {T : Type} (w : Wfc T) (x0 x1 y0 y1 : Nat)
    (sp : Span T) (hsp : w.span (x0, x1) (y0, y1) = some sp) :
    x0 < x1 ∧ x1 < w.width ∧ y0 < y1 ∧ y1 < w.height := by
  unfold Wfc.span at hsp
  split_ifs at hsp with h1 h2 h3 h4
  · exact ⟨by omega, h3, by omega, h4⟩

theorem span_characterization {T : Type} (w : Wfc T) (hv : w.Valid)
    (x0 x1 y0 y1 : Nat) (hx0 : x0 < x1) (hx1 : x1 < w.width) (hy0 : y0 < y1)
    (hy1 : y1 < w.height) :
    ∃ sp : Span T, w.span (x0, x1) (y0, y1) = some sp ∧
      sp.length = y1 - y0 ∧
      (∀ r ∈ sp, r.length = x1 - x0) ∧
      ∀ j i, j < y1 - y0 → i < x1 - x0 →
        sp[j]?.bind (fun r => r[i]?) =
          w.map[(y0 + j) * w.width + x0 + i]? := by
  obtain ⟨hw, hh, hlen⟩ := hv
  have hch := chunks_spec w.width hw w.height w.map hlen
  set L : Span T := ((chunks w.width w.map).take y1).drop y0 with hL
  have hLlen : L.length = y1 - y0 := by
    rw [hL, List.length_drop, List.length_take, hch.1]
    omega
  have hLget : ∀ j, j < y1 - y0 →
      L[j]? = some ((w.map.drop (w.width * (y0 + j))).take w.width) := by
    intro j hj
    rw [hL, List.getElem?_drop, List.getElem?_take, if_pos (by omega)]
    exact hch.2 (y0 + j) (by omega)
  have hrowlen : ∀ j, j < y1 - y0 →
      ((w.map.drop (w.width * (y0 + j))).take w.width).length = w.width := by
    intro j hj
    rw [List.length_take, List.length_drop, hlen]
    have : w.width * (y0 + j) + w.width ≤ w.width * w.height := by
      have h2 : w.width * (y0 + j) + w.width = w.width * (y0 + j + 1) := by ring
      rw [h2]
      exact Nat.mul_le_mul_left _ (by omega)
    omega
  have hmem : ∀ ch ∈ L,
      (if x1 ≤ ch.length then some ((ch.drop x0).take (x1 - x0)) else none) =
        some ((ch.drop x0).take (x1 - x0)) := by
    intro ch hchmem
    obtain ⟨j, hjlt, hjget⟩ := List.mem_iff_getElem.mp hchmem
    have hj2 : j < y1 - y0 := by omega
    have := hLget j hj2
    rw [List.getElem?_eq_getElem hjlt, hjget] at this
    have hchlen : ch.length = w.width := by
      rw [(Option.some.injEq _ _).mp this]
      exact hrowlen j hj2
    rw [if_pos (by omega)]
  refine ⟨L.map (fun ch => (ch.drop x0).take (x1 - x0)), ?_, ?_, ?_, ?_⟩
  · unfold Wfc.span
    rw [if_neg (by simp; omega), if_neg (by simp; omega), if_pos hx1,
      if_pos hy1]
    exact mapM_eq_some_map _ _ L hmem
  · rw [List.length_map, hLlen]
  · intro r hr
    obtain ⟨ch, hchmem, hrch⟩ := List.mem_map.mp hr
    obtain ⟨j, hjlt, hjget⟩ := List.mem_iff_getElem.mp hchmem
    have hj2 : j < y1 - y0 := by omega
    have := hLget j hj2
    rw [List.getElem?_eq_getElem hjlt, hjget] at this
    have hchlen : ch.length = w.width := by
      rw [(Option.some.injEq _ _).mp this]
      exact hrowlen j hj2
    rw [← hrch, List.length_take, List.length_drop, hchlen]
    omega
  · intro j i hj hi
    have hjL : j < L.length := by omega
    have hLj := hLget j hj
    rw [List.getElem?_map, hLj]
    simp only [Option.map_some', Option.some_bind]
    rw [List.getElem?_take, if_pos hi, List.getElem?_drop,
      List.getElem?_take, if_pos (by omega), List.getElem?_drop]
    have harith : w.width * (y0 + j) + (x0 + i) =
        (y0 + j) * w.width + x0 + i := by ring
    rw [harith]

theorem spanWidth_eq {T : Type} (sp : Span T) (sw : Nat) (hsp : sp ≠ [])
    (hrows : ∀ r ∈ sp, r.length = sw) : spanWidth sp = sw := by
  have h0 : 0 < sp.length := List.length_pos.mpr hsp
  have h1 : sp[0]? = some (sp.get ⟨0, h0⟩) := List.getElem?_eq_getElem h0
  rw [spanWidth, h1]
  simp [hrows _ (List.getElem_mem h0)]

theorem colIterStates_closed {T : Type} (sp : Span T) (sw : Nat) (_hsw : 0 < sw)
    (hsp : sp ≠ []) (hrows : ∀ r ∈ sp, r.length = sw) :
    ∀ k, k ≤ sw * sp.length →
      colIterStates sp k =
        some (if k % sp.length = 0 ∧ k ≠ 0
          then ⟨sp.length, k / sp.length - 1⟩
          else ⟨k % sp.length, k / sp.length⟩) := by
  have hW := spanWidth_eq sp sw hsp hrows
  have hsh : 0 < sp.length := List.length_pos.mpr hsp
  intro k
  induction k with
  | zero =>
    intro _
    simp [colIterStates]
  | succ k ih =>
    intro hk1
    have hklt : k < sw * sp.length := hk1
    have hstate := ih (Nat.le_of_lt hklt)
    have hqlt : k / sp.length < sw := by
      rw [Nat.div_lt_iff_lt_mul hsh]
      exact hklt
    have hmod : k % sp.length < sp.length := Nat.mod_lt _ hsh
    by_cases hcase : k % sp.length = 0 ∧ k ≠ 0
    · -- state ⟨height, column - 1⟩: a column was exhausted, move to its right
      have hstate2 : colIterStates sp k =
          some ⟨sp.length, k / sp.length - 1⟩ := by
        rw [hstate, if_pos hcase]
      have hqpos : 0 < k / sp.length := by
        rcases Nat.eq_zero_or_pos (k / sp.length) with h0 | h0
        · exfalso
          have hdm := Nat.div_add_mod k sp.length
          rw [h0, hcase.1] at hdm
          exact hcase.2 (by omega)
        · exact h0
      have hq1 : k / sp.length - 1 + 1 = k / sp.length := by omega
      have hrow0 : sp[0]? = some (sp.get ⟨0, hsh⟩) := List.getElem?_eq_getElem hsh
      have hlen0 : (sp.get ⟨0, hsh⟩).length = sw := hrows _ (List.getElem_mem hsh)
      have hq0 : ((sp.get ⟨0, hsh⟩))[k / sp.length]? =
          some ((sp.get ⟨0, hsh⟩).get ⟨k / sp.length, by omega⟩) :=
        List.getElem?_eq_getElem (by omega)
      have hnext : colNext sp (⟨sp.length, k / sp.length - 1⟩ : ColIterS) =
          some (some ((sp.get ⟨0, hsh⟩).get ⟨k / sp.length, by omega⟩),
            ⟨1, k / sp.length⟩) := by
        unfold colNext
        simp only [spanHeight, hW, hq1]
        rw [if_neg (fun hc => by omega), if_pos trivial, if_neg (by omega)]
        simp only [hrow0, hq0]
      rw [colIterStates]
      simp only [hstate2, hnext]
      rcases Nat.lt_or_ge 1 sp.length with h1 | h1
      · have hsucc := succ_div_mod_lt sp.length k hsh
          (by rw [hcase.1]; omega)
        rw [if_neg (by omega), hsucc.1, hsucc.2, hcase.1]
      · have hsh1 : sp.length = 1 := by omega
        have hsucc := succ_div_mod_eq sp.length k hsh
          (by rw [hcase.1]; omega)
        rw [if_pos ⟨hsucc.2, by omega⟩, hsucc.1, hsh1]
        simp
    · -- state ⟨row, column⟩ with the cursor inside a column
      have hstate2 : colIterStates sp k =
          some ⟨k % sp.length, k / sp.length⟩ := by
        rw [hstate, if_neg hcase]
      have hrowr : sp[k % sp.length]? = some (sp.get ⟨k % sp.length, hmod⟩) :=
        List.getElem?_eq_getElem hmod
      have hlenr : (sp.get ⟨k % sp.length, hmod⟩).length = sw :=
        hrows _ (List.getElem_mem hmod)
      have hqr : ((sp.get ⟨k % sp.length, hmod⟩))[k / sp.length]? =
          some ((sp.get ⟨k % sp.length, hmod⟩).get ⟨k / sp.length, by omega⟩) :=
        List.getElem?_eq_getElem (by omega)
      have hnext : colNext sp (⟨k % sp.length, k / sp.length⟩ : ColIterS) =
          some (some ((sp.get ⟨k % sp.length, hmod⟩).get ⟨k / sp.length, by omega⟩),
            ⟨k % sp.length + 1, k / sp.length⟩) := by
        unfold colNext
        simp only [spanHeight, hW]
        rw [if_neg (fun hc => by omega), if_neg (by omega)]
        simp only [hrowr, hqr]
      rw [colIterStates]
      simp only [hstate2, hnext]
      rcases Nat.lt_or_ge (k % sp.length + 1) sp.length with hnextlt | hnextge
      · have hsucc := succ_div_mod_lt sp.length k hsh hnextlt
        rw [if_neg (by omega), hsucc.1, hsucc.2]
      · have hnexteq : k % sp.length + 1 = sp.length := by omega
        have hsucc := succ_div_mod_eq sp.length k hsh hnexteq
        rw [if_pos ⟨hsucc.2, by omega⟩, hsucc.1]
        simp only [Nat.add_sub_cancel]
        rw [hnexteq]

theorem colIterItem_inbound {T : Type} (sp : Span T) (sw : Nat) (hsw : 0 < sw)
    (hsp : sp ≠ []) (hrows : ∀ r ∈ sp, r.length = sw) (r q : Nat)
    (hr : r < sp.length) (hq : q < sw) :
    colIterItem sp (q * sp.length + r) =
      some (some ((sp.get ⟨r, hr⟩).get
        ⟨q, by rw [hrows _ (List.get_mem sp r hr)]; exact hq⟩)) := by
  have hW := spanWidth_eq sp sw hsp hrows
  have hsh : 0 < sp.length := List.length_pos.mpr hsp
  have hk : q * sp.length + r < sw * sp.length := by
    calc q * sp.length + r < q * sp.length + sp.length := by omega
    _ = (q + 1) * sp.length := by ring
    _ ≤ sw * sp.length := Nat.mul_le_mul_right _ (by omega)
  have hdiv : (q * sp.length + r) / sp.length = q := by
    rw [Nat.add_comm, Nat.mul_comm q sp.length, Nat.add_mul_div_left _ _ hsh,
      Nat.div_eq_of_lt hr, Nat.zero_add]
  have hmod : (q * sp.length + r) % sp.length = r := by
    rw [Nat.add_comm, Nat.mul_comm q sp.length, Nat.add_mul_mod_self_left,
      Nat.mod_eq_of_lt hr]
  have hstate := colIterStates_closed sp sw hsw hsp hrows (q * sp.length + r)
    (Nat.le_of_lt hk)
  rw [hdiv, hmod] at hstate
  by_cases hcase : r = 0 ∧ q * sp.length + r ≠ 0
  · obtain ⟨hr0, hne⟩ := hcase
    rw [if_pos ⟨hr0, hne⟩] at hstate
    subst hr0
    have hqpos : 0 < q := by
      rcases Nat.eq_zero_or_pos q with h0 | h0
      · exact absurd (by rw [h0]; ring) hne
      · exact h0
    have hq1 : q - 1 + 1 = q := by omega
    have hrow0 : sp[0]? = some (sp.get ⟨0, hsh⟩) := List.getElem?_eq_getElem hsh
    have hq0 : ((sp.get ⟨0, hsh⟩))[q]? = some ((sp.get ⟨0, hsh⟩).get
        ⟨q, by rw [hrows _ (List.get_mem sp 0 hsh)]; exact hq⟩) :=
      List.getElem?_eq_getElem (by
        rw [hrows _ (List.get_mem sp 0 hsh)]
        exact hq)
    rw [colIterItem, hstate]
    simp only []
    unfold colNext
    simp only [spanHeight, hW, hq1]
    rw [if_neg (fun hc => by omega), if_pos trivial, if_neg (by omega)]
    simp only [hrow0, hq0]
    rfl
  · rw [if_neg hcase] at hstate
    have hrowr : sp[r]? = some (sp.get ⟨r, hr⟩) := List.getElem?_eq_getElem hr
    have hqr : ((sp.get ⟨r, hr⟩))[q]? = some ((sp.get ⟨r, hr⟩).get
        ⟨q, by rw [hrows _ (List.get_mem sp r hr)]; exact hq⟩) :=
      List.getElem?_eq_getElem (by
        rw [hrows _ (List.get_mem sp r hr)]
        exact hq)
    rw [colIterItem, hstate]
    simp only []
    unfold colNext
    simp only [spanHeight, hW]
    rw [if_neg (fun hc => by omega), if_neg (by omega)]
    simp only [hrowr, hqr]
    rfl

theorem colIterItem_end {T : Type} (sp : Span T) (sw : Nat) (hsw : 0 < sw)
    (hsp : sp ≠ []) (hrows : ∀ r ∈ sp, r.length = sw) :
    colIterItem sp (sw * sp.length) = some none := by
  have hW := spanWidth_eq sp sw hsp hrows
  have hsh : 0 < sp.length := List.length_pos.mpr hsp
  have hN0 : sw * sp.length ≠ 0 := Nat.mul_ne_zero (by omega) (by omega)
  have hmod : sw * sp.length % sp.length = 0 := Nat.mul_mod_left _ _
  have hdiv : sw * sp.length / sp.length = sw := Nat.mul_div_cancel _ hsh
  have hstate := colIterStates_closed sp sw hsw hsp hrows (sw * sp.length)
    (Nat.le_refl _)
  rw [if_pos ⟨hmod, hN0⟩, hdiv] at hstate
  have hsw1 : sw - 1 + 1 = sw := by omega
  rw [colIterItem, hstate]
  simp only []
  unfold colNext
  simp only [spanHeight, hW, hsw1]
  rw [if_neg (fun hc => by omega), if_pos trivial, if_pos trivial]
  rfl

theorem commit_length (w : Wfc S) (sel cVal : Nat) (map1 : List (Tile S))
    (old : Finset S) (h : w.commit sel cVal = some (map1, old)) :
    map1.length = w.map.length := by
  unfold Wfc.commit at h
  split at h
  · split at h
    · simp only [Option.some.injEq, Prod.mk.injEq] at h
      rw [← h.1]
      simp
    · exact absurd h (by simp)
  · exact absurd h (by simp)

theorem propagate_entries (R : Rules S) (width height : Nat)
    (map1 : List (Tile S)) (sel : Nat) (em : List (Nat × ℚ)) (b : Bool)
    (sts : List (Nat × Finset S))
    (h : propagate R width height map1 sel em = some (b, sts)) :
    ∀ p ∈ sts, p.2 ≠ ∅ ∧ p.1 < width * height := by
  induction em generalizing b sts with
  | nil =>
    simp only [propagate, Option.some.injEq, Prod.mk.injEq] at h
    rw [← h.2]
    simp
  | cons q rest ih =>
    unfold propagate at h
    by_cases hq : q.1 = sel
    · rw [if_pos hq] at h
      exact ih _ _ h
    rw [if_neg hq] at h
    by_cases hb : q.1 < width * height
    · rw [if_pos hb] at h
      by_cases hc : R.get_states ⟨width, height, map1⟩ (q.1 % width, q.1 / width) = ∅
      · rw [if_pos hc] at h
        simp only [Option.some.injEq, Prod.mk.injEq] at h
        rw [← h.2]
        simp
      · rw [if_neg hc] at h
        rcases hrec : propagate R width height map1 sel rest with _ | vl <;>
          rw [hrec] at h
        · exact absurd h (by simp)
        · rcases vl with ⟨v, l⟩
          simp only [Option.some.injEq, Prod.mk.injEq] at h
          intro p hp
          rw [← h.2] at hp
          rcases List.mem_cons.mp hp with hp1 | hp2
          · subst hp1
            exact ⟨hc, hb⟩
          · exact ih _ _ (by rw [hrec, h.1]) p hp2
    · rw [if_neg hb] at h
      exact absurd h (by simp)

theorem writeStates_isSome (l : List (Nat × Finset S)) (m : List (Tile S))
    (h : ∀ p ∈ l, p.2 ≠ ∅ ∧ p.1 < m.length) :
    ∃ m2, writeStates m l = some m2 := by
  induction l generalizing m with
  | nil => exact ⟨m, rfl⟩
  | cons p rest ih =>
    obtain ⟨hne, hlt⟩ := h p (List.mem_cons_self p rest)
    have hnil := ascList_ne_nil p.2 hne
    have hrest : ∀ q ∈ rest, q.2 ≠ ∅ ∧ q.1 < m.length :=
      fun q hq => h q (List.mem_cons_of_mem p hq)
    rcases hl : ascList p.2 with _ | ⟨st, tl⟩
    · exact absurd hl hnil
    rcases tl with _ | ⟨st2, tl2⟩
    · obtain ⟨m2, hm2⟩ := ih (m.set p.1 (Tile.Definite st))
        (by simpa [List.length_set] using hrest)
      refine ⟨m2, ?_⟩
      rw [writeStates, if_pos hlt, hl]
      exact hm2
    · obtain ⟨m2, hm2⟩ := ih (m.set p.1 (Tile.Indefinite p.2))
        (by simpa [List.length_set] using hrest)
      refine ⟨m2, ?_⟩
      rw [writeStates, if_pos hlt, hl]
      exact hm2

/-- Claim C1 as amended: `step()` does not distinguish the two terminal
outcomes.  When no indefinite cell remains it returns `None`, and when a
contradiction is found while the rollback snapshot of the selected cell is
empty it returns the very same `None`. -/
theorem C1_solved_and_stuck_both_none (R : Rules S) (w : Wfc S) (cSel cVal : Nat) :
    (w.map.filter Tile.isIndefinite = [] → w.stepRet R cSel cVal = some none) ∧
    (∀ sel map1 old sts,
      selectCell (w.entropyMap R) cSel = some sel →
      w.commit sel cVal = some (map1, old) →
      propagate R w.width w.height map1 sel (w.entropyMap R) = some (false, sts) →
      old = ∅ →
      w.stepRet R cSel cVal = some none) := by
  constructor
  · intro h
    simp [Wfc.stepRet, Wfc.step, Wfc.entropyMap, h, sortEntries]
  · intro sel map1 old sts hsel hcommit hprop hold
    have hne : w.entropyMap R ≠ [] := by
      intro hnil
      rw [hnil, selectCell_nil] at hsel
      exact Option.noConfusion hsel
    have hemp : (w.entropyMap R).isEmpty = false := by
      simpa [List.isEmpty_iff] using hne
    subst hold
    simp [Wfc.stepRet, Wfc.step, hemp, hsel, hcommit, hprop]

/-- Witness for C1: the amended theorem applied to the concrete stuck run
on `wfcStuck`. -/
theorem C1_witness : wfcStuck.stepRet Rzero 0 0 = some none :=
  (C1_solved_and_stuck_both_none Rzero wfcStuck 0 0).2 0
    [Tile.Definite 5, Tile.Indefinite {5}] ∅ []
    (by decide) (by decide) (by decide) rfl

/-- Claim C1, counterexample: the claim asserts the `step()` result for the
all-definite (solved) outcome always differs from the result for the
exhausted-rollback (stuck) outcome.  On `wfcSolved` (no indefinite cell)
`step` returns `None`; on `wfcStuck` a contradiction is found (`propagate`
ends with `valid = false`) while the rollback snapshot is empty
(`commit` leaves `old = ∅`), and `step` returns the very same `None`. -/
theorem C1_counterexample :
    (wfcSolved.map.filter Tile.isIndefinite = [] ∧
      wfcSolved.stepRet Rzero 0 0 = some none) ∧
    (selectCell (wfcStuck.entropyMap Rzero) 0 = some 0 ∧
      wfcStuck.commit 0 0 = some ([Tile.Definite 5, Tile.Indefinite {5}], ∅) ∧
      propagate Rzero wfcStuck.width wfcStuck.height
        [Tile.Definite 5, Tile.Indefinite {5}] 0 (wfcStuck.entropyMap Rzero) =
        some (false, []) ∧
      wfcStuck.stepRet Rzero 0 0 = some none) ∧
    wfcSolved.stepRet Rzero 0 0 = wfcStuck.stepRet Rzero 0 0 := by
  decide

/-- Claim C2 (code bug): on `wfcC` with rules `RC`, the selected cell 0 is
committed to 1, propagation recomputes `{8}` for cell 1 and then hits the
contradiction at cell 2; the rollback restores cell 0 to
`Indefinite {2}`, yet the recomputed set for cell 1 is still written: the
final map holds `Definite 8` where the step started with
`Indefinite {5}`, so the failed step is not atomic. -/
theorem C2_partial_commit_bug :
    wfcC.map[1]? = some (Tile.Indefinite {5}) ∧
    wfcC.commit 0 0 =
      some ([Tile.Definite 1, Tile.Indefinite {5}, Tile.Indefinite {5}], {2}) ∧
    propagate RC wfcC.width wfcC.height
      [Tile.Definite 1, Tile.Indefinite {5}, Tile.Indefinite {5}] 0
      (wfcC.entropyMap RC) = some (false, [(1, {8})]) ∧
    wfcC.step RC 0 0 =
      some (some (), [Tile.Indefinite {2}, Tile.Definite 8, Tile.Indefinite {5}]) := by
  decide

/-- Claim C3 (code bug): `step` enumerates entropies after filtering, so
the indices in the entropy map count indefinite tiles only, yet they are
used as grid indices.  On `wfcD` (cell 0 definite), the entry for the
second indefinite tile carries index 1, and propagation writes its
recomputed set to grid cell 0: the step returns with cell 0 changed from
`Definite 7` to `Definite 9`, overwriting a tile that was definite when
the step began. -/
theorem C3_definite_overwritten_bug :
    wfcD.map[0]? = some (Tile.Definite 7) ∧
    wfcD.step RD 1 0 =
      some (some (), [Tile.Definite 9, Tile.Definite 1, Tile.Indefinite {1, 2}]) := by
  decide

/-- Claim C4 (code bug): on `wfcE` with entropy = candidate count, the
sorted entropy map is `[(0, 1), (1, 2)]` with the minimum attained exactly
at the first entry; `Iterator::position` is taken after the first entry
was already consumed, so `next_highest = 0` and the candidate slice
`[0..0]` is empty — the pool misses every minimal cell and
`choose(..).expect("No states left!")` panics instead of selecting
cell 0. -/
theorem C4_empty_pool_bug :
    wfcE.entropyMap RE = [(0, 1), (1, 2)] ∧
    pool (wfcE.entropyMap RE) = [] ∧
    wfcE.step RE 0 0 = none := by
  decide

/-- Claim C5 (code bug): the view built at linear index 1 of the 2-by-2
grid `wfcA` has position `(x, y) = (1, 0)` as claimed, but `get()`
destructures that pair as `(row, col)` and reads `map[x*width + y]`:
it returns the tile at linear index 2 instead of the tile at
`y*width + x = 1`. -/
theorem C5_get_swapped_bug :
    wfcA.view 1 = some (1, 0) ∧
    wfcA.map[1]? = some (Tile.Definite 1) ∧
    wfcA.viewGet 1 = some (Tile.Definite 2) := by
  decide

/-- Claim C6 (code bug): `row(0)` on the 2-wide, 3-high grid `wfcB`
slices `map[0 .. 0 + height]`, yielding the 3 tiles at indices 0, 1, 2
instead of the `width = 2` tiles of row 0. -/
theorem C6_row_length_bug :
    wfcB.width = 2 ∧ wfcB.height = 3 ∧
    wfcB.row 0 = some [[Tile.Definite 0, Tile.Definite 1, Tile.Definite 2]] := by
  decide

/-- Claim C7, counterexample: on the 2-by-2 grid `wfcA`, the x-range
`0..2` and y-range `0..1` are non-empty and within the grid bounds
(`x.end = 2 ≤ width`), so the claim says `span` must succeed, but the
source asserts `x.end < width` strictly and the call fails. -/
theorem C7_counterexample :
    (0 < 2 ∧ 2 ≤ wfcA.width ∧ 0 < 1 ∧ 1 ≤ wfcA.height) ∧
    wfcA.span (0, 2) (0, 1) = none := by
  decide

/-- Claim C7 as amended: `span(x0..x1, y0..y1)` on a valid grid succeeds
exactly when both ranges are non-empty and their ends are strictly below
the grid dimensions; in particular the full-width range `0..width` (and
full-height range `0..height`) is rejected as well, with the same
precondition failure as genuinely out-of-range arguments. -/
theorem C7_span_succeeds_iff (w : Wfc T) (hv : w.Valid) (x0 x1 y0 y1 : Nat) :
    (∃ sp, w.span (x0, x1) (y0, y1) = some sp) ↔
      (x0 < x1 ∧ x1 < w.width ∧ y0 < y1 ∧ y1 < w.height) := by
  constructor
  · rintro ⟨sp, hsp⟩
    exact span_some_conditions w x0 x1 y0 y1 sp hsp
  · rintro ⟨hx0, hx1, hy0, hy1⟩
    obtain ⟨sp, hsp, -, -, -⟩ :=
      span_characterization w hv x0 x1 y0 y1 hx0 hx1 hy0 hy1
    exact ⟨sp, hsp⟩

/-- Witness for C7: the amended theorem applied to the interior range
`0..1 × 0..1` of the 2-by-2 grid. -/
theorem C7_witness : ∃ sp, wfcA.span (0, 1) (0, 1) = some sp :=
  (C7_span_succeeds_iff wfcA ⟨by decide, by decide, by decide⟩ 0 1 0 1).mpr
    ⟨by decide, by decide, by decide, by decide⟩

/-- Claim C8: for every span successfully built by `span(x0..x1, y0..y1)`,
row-iteration yields exactly `(x1-x0)*(y1-y0)` tiles in row-major order
matching direct grid indexing — the k-th call yields the grid element at
linear index `(y0 + k/(x1-x0))*width + x0 + k%(x1-x0)` — and the next
call yields `None`. -/
theorem C8_rowIter_spec (w : Wfc T) (hv : w.Valid) (x0 x1 y0 y1 : Nat)
    (sp : Span T) (hsp : w.span (x0, x1) (y0, y1) = some sp) :
    (∀ k, k < (x1 - x0) * (y1 - y0) →
      rowIterItem sp k =
        some (w.map[(y0 + k / (x1 - x0)) * w.width + x0 + k % (x1 - x0)]?)) ∧
    rowIterItem sp ((x1 - x0) * (y1 - y0)) = some none := by
  obtain ⟨hx0, hx1, hy0, hy1⟩ := span_some_conditions w x0 x1 y0 y1 sp hsp
  obtain ⟨sp2, hsp2, hlen2, hrows2, helem2⟩ :=
    span_characterization w hv x0 x1 y0 y1 hx0 hx1 hy0 hy1
  rw [hsp] at hsp2
  obtain rfl : sp = sp2 := Option.some.inj hsp2
  have hsw : 0 < x1 - x0 := by omega
  have hsh : sp.length = y1 - y0 := hlen2
  constructor
  · intro k hk
    have hy : k / (x1 - x0) < y1 - y0 := div_pred_lt_of_mod_eq_zero hsw hk
    have hx : k % (x1 - x0) < x1 - x0 := Nat.mod_lt _ hsw
    have hdm : k / (x1 - x0) * (x1 - x0) + k % (x1 - x0) = k := by
      rw [Nat.mul_comm]
      exact Nat.div_add_mod k (x1 - x0)
    have hylen : k / (x1 - x0) < sp.length := by omega
    have hitem := rowIterItem_inbound sp (x1 - x0) hsw hrows2
      (k / (x1 - x0)) (k % (x1 - x0)) hylen hx
    rw [hdm] at hitem
    have hsp_get : sp[k / (x1 - x0)]? = some (sp.get ⟨k / (x1 - x0), hylen⟩) :=
      List.getElem?_eq_getElem hylen
    have hrlen : (sp.get ⟨k / (x1 - x0), hylen⟩).length = x1 - x0 :=
      hrows2 _ (List.getElem_mem hylen)
    have hin : ((sp.get ⟨k / (x1 - x0), hylen⟩))[k % (x1 - x0)]? =
        some ((sp.get ⟨k / (x1 - x0), hylen⟩).get ⟨k % (x1 - x0), by omega⟩) :=
      List.getElem?_eq_getElem (by omega)
    have helem := helem2 (k / (x1 - x0)) (k % (x1 - x0)) hy hx
    rw [hsp_get] at helem
    simp only [Option.some_bind] at helem
    rw [hin] at helem
    rw [hitem, ← helem]
  · have hne : sp ≠ [] := by
      intro h0
      rw [h0] at hsh
      simp at hsh
      omega
    have hend := rowIterItem_end sp (x1 - x0) hsw hne hrows2
    rw [hsh] at hend
    exact hend

/-- Witness for C8: the theorem applied to the 2-by-2 span `span(0..2, 0..2)`
of the 3-by-3 grid, at the first yield and at the exhaustion point. -/
theorem C8_witness :
    rowIterItem [[Tile.Definite 0, Tile.Definite 1],
      [Tile.Definite 3, Tile.Definite 4]] 0 = some (wfcF.map[0]?) ∧
    rowIterItem [[Tile.Definite 0, Tile.Definite 1],
      [Tile.Definite 3, Tile.Definite 4]] 4 = some none :=
  ⟨(C8_rowIter_spec wfcF ⟨by decide, by decide, by decide⟩ 0 2 0 2
      [[Tile.Definite 0, Tile.Definite 1], [Tile.Definite 3, Tile.Definite 4]]
      (by decide)).1 0 (by decide),
    (C8_rowIter_spec wfcF ⟨by decide, by decide, by decide⟩ 0 2 0 2
      [[Tile.Definite 0, Tile.Definite 1], [Tile.Definite 3, Tile.Definite 4]]
      (by decide)).2⟩

/-- Claim C9 as amended: for every span successfully built by
`span(x0..x1, y0..y1)`, column-iteration yields exactly
`(x1-x0)*(y1-y0)` tiles in column-major (transposed) order — the k-th
call yields the grid element at linear index
`(y0 + k%(y1-y0))*width + x0 + k/(y1-y0)`, each row contributing one
element per column in row order — and the single call after that yields
`None`.  (Later calls are not guaranteed to yield `None`: on spans with
more than one row the second post-exhaustion call indexes out of
bounds.) -/
theorem C9_colIter_spec (w : Wfc T) (hv : w.Valid) (x0 x1 y0 y1 : Nat)
    (sp : Span T) (hsp : w.span (x0, x1) (y0, y1) = some sp) :
    (∀ k, k < (x1 - x0) * (y1 - y0) →
      colIterItem sp k =
        some (w.map[(y0 + k % (y1 - y0)) * w.width + x0 + k / (y1 - y0)]?)) ∧
    colIterItem sp ((x1 - x0) * (y1 - y0)) = some none := by
  obtain ⟨hx0, hx1, hy0, hy1⟩ := span_some_conditions w x0 x1 y0 y1 sp hsp
  obtain ⟨sp2, hsp2, hlen2, hrows2, helem2⟩ :=
    span_characterization w hv x0 x1 y0 y1 hx0 hx1 hy0 hy1
  rw [hsp] at hsp2
  obtain rfl : sp = sp2 := Option.some.inj hsp2
  have hsw : 0 < x1 - x0 := by omega
  have hsh : sp.length = y1 - y0 := hlen2
  have hshpos : 0 < sp.length := by omega
  have hne : sp ≠ [] := by
    intro h0
    rw [h0] at hsh
    simp at hsh
    omega
  constructor
  · intro k hk
    have hq : k / (y1 - y0) < x1 - x0 := by
      rw [Nat.div_lt_iff_lt_mul (by omega)]
      exact hk
    have hr : k % (y1 - y0) < y1 - y0 := Nat.mod_lt _ (by omega)
    have hrlen : k % (y1 - y0) < sp.length := by omega
    have hitem := colIterItem_inbound sp (x1 - x0) hsw hne hrows2
      (k % (y1 - y0)) (k / (y1 - y0)) hrlen hq
    have hdm : k / (y1 - y0) * sp.length + k % (y1 - y0) = k := by
      rw [hsh, Nat.mul_comm]
      exact Nat.div_add_mod k (y1 - y0)
    rw [hdm] at hitem
    have hsp_get : sp[k % (y1 - y0)]? = some (sp.get ⟨k % (y1 - y0), hrlen⟩) :=
      List.getElem?_eq_getElem hrlen
    have hrowl : (sp.get ⟨k % (y1 - y0), hrlen⟩).length = x1 - x0 :=
      hrows2 _ (List.getElem_mem hrlen)
    have hin : ((sp.get ⟨k % (y1 - y0), hrlen⟩))[k / (y1 - y0)]? =
        some ((sp.get ⟨k % (y1 - y0), hrlen⟩).get ⟨k / (y1 - y0), by omega⟩) :=
      List.getElem?_eq_getElem (by omega)
    have helem := helem2 (k % (y1 - y0)) (k / (y1 - y0)) hr hq
    rw [hsp_get] at helem
    simp only [Option.some_bind] at helem
    rw [hin] at helem
    rw [hitem, ← helem]
  · have hend := colIterItem_end sp (x1 - x0) hsw hne hrows2
    rw [hsh] at hend
    exact hend

/-- Witness for C9: the amended theorem applied to the 1-wide, 2-high span
`span(0..1, 0..2)` of `wfcB`, at the first yield and at exhaustion. -/
theorem C9_witness :
    colIterItem [[Tile.Definite 0], [Tile.Definite 2]] 0 =
      some (wfcB.map[0]?) ∧
    colIterItem [[Tile.Definite 0], [Tile.Definite 2]] 2 = some none :=
  ⟨(C9_colIter_spec wfcB ⟨by decide, by decide, by decide⟩ 0 1 0 2
      [[Tile.Definite 0], [Tile.Definite 2]] (by decide)).1 0 (by decide),
    (C9_colIter_spec wfcB ⟨by decide, by decide, by decide⟩ 0 1 0 2
      [[Tile.Definite 0], [Tile.Definite 2]] (by decide)).2⟩

/-- Claim C10: whenever a step on a valid grid selects a cell, commits a
value, and runs propagation to an answer `(b, sts)` — in particular the
contradiction case `b = false` with a non-empty rollback snapshot — the
step returns the non-terminal success value `Some(())`, so the caller
cannot see from the result that a rollback happened. -/
theorem C10_rollback_returns_success (R : Rules S) (w : Wfc S)
    (cSel cVal sel : Nat) (map1 : List (Tile S)) (old : Finset S) (b : Bool)
    (sts : List (Nat × Finset S)) (hv : w.Valid)
    (hsel : selectCell (w.entropyMap R) cSel = some sel)
    (hcommit : w.commit sel cVal = some (map1, old))
    (hprop : propagate R w.width w.height map1 sel (w.entropyMap R) = some (b, sts))
    (hold : b = false → old ≠ ∅) :
    w.stepRet R cSel cVal = some (some ()) := by
  have hne : w.entropyMap R ≠ [] := by
    intro hnil
    rw [hnil, selectCell_nil] at hsel
    exact Option.noConfusion hsel
  have hemp : (w.entropyMap R).isEmpty = false := by
    simpa [List.isEmpty_iff] using hne
  have hlen : map1.length = w.width * w.height := by
    rw [commit_length w sel cVal map1 old hcommit]
    exact hv.2.2
  have hents := propagate_entries R w.width w.height map1 sel
    (w.entropyMap R) b sts hprop
  cases b with
  | true =>
    obtain ⟨m2, hm2⟩ := writeStates_isSome sts map1
      (fun p hp => by rw [hlen]; exact hents p hp)
    simp [Wfc.stepRet, Wfc.step, hemp, hsel, hcommit, hprop, hm2]
  | false =>
    have holdne := hold rfl
    obtain ⟨m2, hm2⟩ := writeStates_isSome sts
      (map1.set sel (Tile.Indefinite old))
      (fun p hp => by
        rw [List.length_set, hlen]
        exact hents p hp)
    simp [Wfc.stepRet, Wfc.step, hemp, hsel, hcommit, hprop, hm2, holdne]

/-- Witness for C10: on `wfcC` with rules `RC`, propagation contradicts at
cell 2 with a non-empty snapshot `{2}` left at the selected cell, and the
step still reports `Some(())`. -/
theorem C10_witness : wfcC.stepRet RC 0 0 = some (some ()) :=
  C10_rollback_returns_success RC wfcC 0 0 0
    [Tile.Definite 1, Tile.Indefinite {5}, Tile.Indefinite {5}] {2} false
    [(1, {8})] ⟨by decide, by decide, by decide⟩
    (by decide) (by decide) (by decide) (fun _ => by decide)

/-- Claim C9, counterexample: the span built by `span(0..1, 0..2)` on
`wfcB` yields its `(1-0)*(2-0) = 2` tiles; the first call after
exhaustion returns `None`, but the claim says every subsequent call does,
and already the second one instead indexes the row slice out of bounds
(a panic, modelled by the outer `none`). -/
theorem C9_counterexample :
    wfcB.span (0, 1) (0, 2) = some [[Tile.Definite 0], [Tile.Definite 2]] ∧
    colIterItem [[Tile.Definite (0 : ℕ)], [Tile.Definite 2]] 2 = some none ∧
    colIterItem [[Tile.Definite (0 : ℕ)], [Tile.Definite 2]] 3 = none := by
  decide

end WfcRs
